import Mathlib

/-
Verification development for the travel-chatbot repository.

Part A embeds the user-facing proxy implemented in
`src/frontend/app/page.tsx`: the chat transcript state, the WebSocket
event handlers (`socket.onopen`, `socket.onmessage`), `sendMessage`, and
the response renderers `formatValue` / `formatJsonResponse`.

Part B models the routing and coordination engine described in the
specification (intent classifier, coordinator sessions, handoff bounds).
The backend sources (`backend/agents/...`) are not part of this source
tree, so those definitions are modelled from the specification text and
are marked as such in their doc comments.
-/

set_option maxRecDepth 4000

/-- A character is one of the whitespace characters relevant to the
JavaScript string operations modelled below (space, tab, LF, CR). -/
def isJsWs (c : Char) : Bool :=
  c = ' ' || c = '\t' || c = '\n' || c = '\r'

/-- Drop leading whitespace characters from a character list. -/
def skipWs : List Char → List Char
  | [] => []
  | c :: rest => if isJsWs c then skipWs rest else c :: rest

/-- Models `String.prototype.trim` as used by `sendMessage` in
`src/frontend/app/page.tsx` (`message.trim()`): removes leading and
trailing whitespace.  (The ECMAScript version also strips some further
Unicode space characters; this model covers the ASCII ones.) -/
def jsTrim (s : String) : String :=
  String.mk (List.reverse (skipWs (List.reverse (skipWs s.data))))

/-- The brace character `{`. -/
def lbraceC : Char := Char.ofNat 123

/-- The brace character `}`. -/
def rbraceC : Char := Char.ofNat 125

/-- The double-quote character. -/
def quoteC : Char := Char.ofNat 34

/-- Models `content.startsWith("{")` from the bot-message render branch of
`src/frontend/app/page.tsx`: true iff the first character is `{`. -/
def startsWithBrace (s : String) : Bool :=
  match s.data with
  | [] => false
  | c :: _ => c = lbraceC

/-- The sender tag of a transcript message (`sender: "user" | "bot"` in
the `Message` type of `page.tsx`). -/
inductive Sender where
  | user
  | bot
deriving DecidableEq

/-- The `Message` record of `page.tsx`: `{id: number, content: string,
sender: "user" | "bot"}`.  `id` is the `Date.now()` timestamp. -/
structure ChatMessage where
  id : Nat
  content : String
  sender : Sender
deriving DecidableEq

/-- The React component state of `page.tsx` that the claims are about:
`messages`, `inputMessage`, `ws` (nullable socket reference, modelled as
an `Option`) and `isLoading`. -/
structure AppState where
  messages : List ChatMessage
  inputMessage : String
  ws : Option Unit
  isLoading : Bool
deriving DecidableEq

/-- The greeting text installed by `socket.onopen` in `page.tsx`. -/
def greetingText : String :=
  "Hello! I\x27m your travel assistant. How can I help you plan your trip to Singapore?"

/-- `socket.onopen` from `page.tsx`: replaces the whole transcript with a
single bot greeting message (`setMessages([{id: Date.now(), content:
greeting, sender: "bot"}])`). -/
def onopen (now : Nat) (s : AppState) : AppState :=
  { s with messages := [⟨now, greetingText, Sender.bot⟩] }

/-- `socket.onmessage` from `page.tsx`: appends one bot message whose
content is the received payload (`event.data`) and clears the loading
flag. -/
def onmessage (now : Nat) (payload : String) (s : AppState) : AppState :=
  { s with
    messages := s.messages ++ [⟨now, payload, Sender.bot⟩],
    isLoading := false }

/-- `sendMessage` from `page.tsx`.  Returns the successor state together
with the list of strings passed to `ws.send` during the call.  The guard
is the truthiness test `if (message.trim() && ws)`; inside it the code
appends one user message with the (untrimmed) text, sends the text on the
socket, clears the input field and sets the loading flag. -/
def sendMessage (now : Nat) (s : AppState) (message : String) :
    AppState × List String :=
  if jsTrim message ≠ "" ∧ s.ws.isSome then
    ({ s with
        messages := s.messages ++ [⟨now, message, Sender.user⟩],
        inputMessage := "",
        isLoading := true },
      [message])
  else (s, [])

/-- Finite JSON values: the domain over which the response renderers of
`page.tsx` operate (results of `JSON.parse` and nested field values).
Numbers are restricted to integers in this model; the claims do not
depend on non-integral numerics. -/
inductive Json where
  | null
  | bool (b : Bool)
  | num (n : Int)
  | str (s : String)
  | arr (items : List Json)
  | obj (fields : List (String × Json))

/-- The shape of the React output produced by the renderers of
`page.tsx`, keeping only displayed structure: `text` is a plain
`<span>`, `list` the array rendering, `entries` the key/value
rendering. -/
inductive Rendered where
  | text (s : String)
  | list (items : List Rendered)
  | entries (kvs : List (String × Rendered))

/-- JavaScript `typeof value === "object"`: true for `null`, arrays and
plain objects. -/
def jsTypeofIsObject : Json → Bool
  | .null => true
  | .arr _ => true
  | .obj _ => true
  | _ => false

/-- Text produced by React for `<span>{item}</span>` when `item` is a
primitive (the non-object branch of the array case of `formatValue`):
React renders booleans and `null` as nothing.  The `arr`/`obj` cases are
unreachable from that branch (guarded by `typeof item === "object"`). -/
def reactPrimText : Json → String
  | .bool _ => ""
  | .num n => toString n
  | .str s => s
  | .null => ""
  | .arr _ => ""
  | .obj _ => ""

/-- Models `key.replace(/_/g, " ")` from `formatJsonResponse` in
`page.tsx`: every underscore becomes a space. -/
def replaceUnderscores (s : String) : String :=
  String.mk (s.data.map fun c => if c = '_' then ' ' else c)

/-- `Object.entries` applied to a string yields index/character pairs;
each character is then rendered by `formatValue` as plain text.  Only
reachable when `formatJsonResponse` is handed a string-valued
`jsonData`. -/
def stringCharEntries : Nat → List Char → List (String × Rendered)
  | _, [] => []
  | i, c :: rest => (toString i, Rendered.text (String.mk [c])) :: stringCharEntries (i + 1) rest

mutual

/-- `formatValue` from `page.tsx`: arrays render item-by-item (objects
via `formatJsonResponse`, primitives as `<span>{item}</span>`);
non-null objects are passed to `formatJsonResponse`; everything else is
`<span>{String(value)}</span>` (in particular `String(null) = "null"`). -/
def formatValue : Json → Rendered
  | .arr items => .list (formatArrayItems items)
  | .obj fields => formatJsonResponseValue (.obj fields)
  | .null => .text "null"
  | .bool b => .text (if b then "true" else "false")
  | .num n => .text (toString n)
  | .str s => .text s
  termination_by j => (sizeOf j, 1)

/-- The `value.map(...)` loop in the array branch of `formatValue`. -/
def formatArrayItems : List Json → List Rendered
  | [] => []
  | item :: rest =>
    (if jsTypeofIsObject item then formatJsonResponseValue item
     else .text (reactPrimText item)) :: formatArrayItems rest
  termination_by l => (sizeOf l, 0)

/-- `formatJsonResponse` from `page.tsx` applied to non-string content
(as invoked from `formatValue`): `jsonData` is the content itself and
its `Object.entries` are rendered.  `Object.entries(null)` throws, so
the `catch` branch returns `<span>{content}</span>`, which React renders
as nothing for `null`.  For arrays, entries are index/value pairs; for
booleans and numbers the entry list is empty.  (The string case models
the post-`Object.entries` semantics; it is unreachable from `formatValue`,
whose call is guarded by `typeof item === "object"`.) -/
def formatJsonResponseValue : Json → Rendered
  | .null => .text ""
  | .obj fields => .entries (formatFieldEntries fields)
  | .arr items => .entries (formatIndexedEntries 0 items)
  | .str s => .entries (stringCharEntries 0 s.data)
  | .bool _ => .entries []
  | .num _ => .entries []
  termination_by j => (sizeOf j, 0)

/-- The `Object.entries(jsonData).map(([key, value]) => ...)` loop of
`formatJsonResponse` for object fields: keys are displayed with
underscores replaced by spaces, values via `formatValue`. -/
def formatFieldEntries : List (String × Json) → List (String × Rendered)
  | [] => []
  | (k, v) :: rest => (replaceUnderscores k, formatValue v) :: formatFieldEntries rest
  termination_by l => (sizeOf l, 2)

/-- The same entries loop when `jsonData` is an array: keys are the
decimal indices. -/
def formatIndexedEntries : Nat → List Json → List (String × Rendered)
  | _, [] => []
  | i, v :: rest => (toString i, formatValue v) :: formatIndexedEntries (i + 1) rest
  termination_by _ l => (sizeOf l, 2)

end

/-- Unescape the character after a backslash in a JSON string literal
(`\u` escapes are not supported by this model and yield a parse
failure). -/
def unescapeChar (c : Char) : Option Char :=
  if c = quoteC then some quoteC
  else if c = '\\' then some '\\'
  else if c = '/' then some '/'
  else if c = 'n' then some '\n'
  else if c = 't' then some '\t'
  else if c = 'r' then some '\r'
  else if c = 'b' then some (Char.ofNat 8)
  else if c = 'f' then some (Char.ofNat 12)
  else none

/-- Parse the body of a JSON string literal after the opening quote,
returning the characters up to the closing quote and the remaining
input. -/
def parseStringBody : List Char → Option (List Char × List Char)
  | [] => none
  | c :: rest =>
    if c = quoteC then some ([], rest)
    else if c = '\\' then
      match rest with
      | [] => none
      | e :: rest2 =>
        match unescapeChar e with
        | none => none
        | some c2 =>
          match parseStringBody rest2 with
          | none => none
          | some (acc, rem) => some (c2 :: acc, rem)
    else
      match parseStringBody rest with
      | none => none
      | some (acc, rem) => some (c :: acc, rem)

/-- Split a leading run of decimal digits from the input. -/
def takeDigits : List Char → List Char × List Char
  | [] => ([], [])
  | c :: rest =>
    if c.isDigit then
      let p := takeDigits rest
      (c :: p.1, p.2)
    else ([], c :: rest)

/-- Decimal value of a digit run. -/
def digitsToNat (ds : List Char) : Nat :=
  ds.foldl (fun acc c => 10 * acc + (c.toNat - 48)) 0

/-- Parse a JSON integer (optional minus sign followed by digits). -/
def parseNumberChars (input : List Char) : Option (Json × List Char) :=
  match input with
  | [] => none
  | c :: rest =>
    if c = '-' then
      let p := takeDigits rest
      if p.1 = [] then none else some (.num (-(digitsToNat p.1 : Int)), p.2)
    else
      let p := takeDigits (c :: rest)
      if p.1 = [] then none else some (.num (digitsToNat p.1), p.2)

/-- Match an expected literal tail (for `true`, `false`, `null`). -/
def dropLit : List Char → List Char → Option (List Char)
  | [], l => some l
  | _ :: _, [] => none
  | p :: ps, c :: cs => if c = p then dropLit ps cs else none

mutual

/-- Fuel-bounded recursive-descent JSON value parser (see `JSONParse`). -/
def parseValueF : Nat → List Char → Option (Json × List Char)
  | 0, _ => none
  | f + 1, input =>
    match skipWs input with
    | [] => none
    | c :: rest =>
      if c = quoteC then
        match parseStringBody rest with
        | none => none
        | some (cs, rem) => some (.str (String.mk cs), rem)
      else if c = lbraceC then
        match skipWs rest with
        | c2 :: rest2 =>
          if c2 = rbraceC then some (.obj [], rest2)
          else
            match parseMembersF f (c2 :: rest2) with
            | none => none
            | some (ms, rem) => some (.obj ms, rem)
        | [] => none
      else if c = '[' then
        match skipWs rest with
        | c2 :: rest2 =>
          if c2 = ']' then some (.arr [], rest2)
          else
            match parseElementsF f (c2 :: rest2) with
            | none => none
            | some (vs, rem) => some (.arr vs, rem)
        | [] => none
      else if c = 't' then
        match dropLit ['r', 'u', 'e'] rest with
        | some rem => some (.bool true, rem)
        | none => none
      else if c = 'f' then
        match dropLit ['a', 'l', 's', 'e'] rest with
        | some rem => some (.bool false, rem)
        | none => none
      else if c = 'n' then
        match dropLit ['u', 'l', 'l'] rest with
        | some rem => some (.null, rem)
        | none => none
      else if c = '-' || c.isDigit then parseNumberChars (c :: rest)
      else none

/-- Parse one-or-more `"key": value` members of a JSON object, up to and
including the closing brace. -/
def parseMembersF : Nat → List Char → Option (List (String × Json) × List Char)
  | 0, _ => none
  | f + 1, input =>
    match skipWs input with
    | [] => none
    | c :: rest =>
      if c = quoteC then
        match parseStringBody rest with
        | none => none
        | some (kcs, rem) =>
          match skipWs rem with
          | [] => none
          | c2 :: rem2 =>
            if c2 = ':' then
              match parseValueF f rem2 with
              | none => none
              | some (v, rem3) =>
                match skipWs rem3 with
                | [] => none
                | c3 :: rem4 =>
                  if c3 = ',' then
                    match parseMembersF f rem4 with
                    | none => none
                    | some (ms, rem5) => some ((String.mk kcs, v) :: ms, rem5)
                  else if c3 = rbraceC then some ([(String.mk kcs, v)], rem4)
                  else none
            else none
      else none

/-- Parse one-or-more array elements, up to and including the closing
bracket. -/
def parseElementsF : Nat → List Char → Option (List Json × List Char)
  | 0, _ => none
  | f + 1, input =>
    match parseValueF f input with
    | none => none
    | some (v, rem) =>
      match skipWs rem with
      | [] => none
      | c :: rem2 =>
        if c = ',' then
          match parseElementsF f rem2 with
          | none => none
          | some (vs, rem3) => some (v :: vs, rem3)
        else if c = ']' then some ([v], rem2)
        else none

end

/-- Models the ECMAScript `JSON.parse` builtin as used by
`formatJsonResponse` in `src/frontend/app/page.tsx` (library code
external to this repository).  Returns `none` wherever `JSON.parse`
would throw a `SyntaxError`.  Restrictions of the model, each of which
only enlarges the failure set: numbers must be integers, `\u` string
escapes are unsupported, and duplicate object keys are kept in order of
appearance. -/
def JSONParse (s : String) : Option Json :=
  match parseValueF (s.length + 1) s.data with
  | none => none
  | some (j, rem) => if skipWs rem = [] then some j else none

/-- `formatJsonResponse` from `page.tsx` applied to string content (the
form invoked from the bot-message render branch): the string is passed
to `JSON.parse`; a parse failure is caught and the raw content string is
rendered unchanged, as is a parsed `null` (whose `Object.entries`
throws).  Otherwise the parsed value's entries are rendered. -/
def formatJsonResponse (content : String) : Rendered :=
  match JSONParse content with
  | none => .text content
  | some .null => .text content
  | some (.obj fields) => .entries (formatFieldEntries fields)
  | some (.arr items) => .entries (formatIndexedEntries 0 items)
  | some (.str s) => .entries (stringCharEntries 0 s.data)
  | some (.bool _) => .entries []
  | some (.num _) => .entries []

/-- The bot-message render branch of `page.tsx`:
`message.content.startsWith("{") ? formatJsonResponse(message.content)
: message.content`. -/
def renderBotContent (content : String) : Rendered :=
  if startsWithBrace content then formatJsonResponse content
  else .text content

/-- Claim C3: on every connection-open event the proxy emits the
greeting — after `socket.onopen` runs, the transcript consists of
exactly one bot-sender message with the greeting text, regardless of
prior contents. -/
theorem onopen_greeting (now : Nat) (s : AppState) :
    (onopen now s).messages = [⟨now, greetingText, Sender.bot⟩] := rfl

/-- Claim C2: for input whose trimmed form is non-empty while the socket
is set, `sendMessage` performs exactly one `ws.send` with exactly the
given string, appends exactly one user-sender message with that content,
clears the input field and sets the loading flag. -/
theorem sendMessage_sends_once (now : Nat) (s : AppState) (message : String)
    (htrim : jsTrim message ≠ "") (hws : s.ws.isSome) :
    sendMessage now s message =
      ({ s with
          messages := s.messages ++ [⟨now, message, Sender.user⟩],
          inputMessage := "",
          isLoading := true },
        [message]) := by
  simp [sendMessage, htrim, hws]

/-- Witness for C2 at a concrete input. -/
theorem sendMessage_sends_once_witness :
    sendMessage 7 ⟨[], "draft", some (), false⟩ "hi" =
      ({ messages := [⟨7, "hi", Sender.user⟩], inputMessage := "",
          ws := some (), isLoading := true }, ["hi"]) :=
  sendMessage_sends_once 7 ⟨[], "draft", some (), false⟩ "hi" (by decide) (by decide)

/-- Claim C9: if the input trims to empty or the socket reference is
null, `sendMessage` performs no send and leaves the state unchanged. -/
theorem sendMessage_noop (now : Nat) (s : AppState) (message : String)
    (h : jsTrim message = "" ∨ s.ws = none) :
    sendMessage now s message = (s, []) := by
  rcases h with h | h
  · simp [sendMessage, h]
  · simp [sendMessage, h]

/-- Witness for C9 at a concrete input (whitespace-only message). -/
theorem sendMessage_noop_witness :
    sendMessage 3 ⟨[⟨1, "x", Sender.bot⟩], "q", some (), false⟩ "  " =
      (⟨[⟨1, "x", Sender.bot⟩], "q", some (), false⟩, []) :=
  sendMessage_noop 3 ⟨[⟨1, "x", Sender.bot⟩], "q", some (), false⟩ "  " (Or.inl (by decide))

/-- Claim C8: rendering a bot message never propagates a fault — when
the content starts with `{` but `JSON.parse` fails, the `catch` branch
of `formatJsonResponse` renders the raw content string unchanged. -/
theorem formatJsonResponse_catch (content : String)
    (hb : startsWithBrace content = true) (hp : JSONParse content = none) :
    renderBotContent content = Rendered.text content := by
  simp [renderBotContent, hb, formatJsonResponse, hp]

/-- Witness for C8 at a concrete malformed input. -/
theorem formatJsonResponse_catch_witness :
    renderBotContent "\x7bnot json" = Rendered.text "\x7bnot json" :=
  formatJsonResponse_catch "\x7bnot json" rfl rfl

/-- Claim C1 (amended): `socket.onmessage` appends exactly one
bot-sender message whose stored content equals the received payload,
clears the loading flag and leaves all prior messages (and the other
state fields) unchanged; the displayed text equals the payload whenever
the payload does not start with `{` or fails to parse as JSON (a payload
that parses as JSON is instead displayed as a structured rendering of
its fields). -/
theorem onmessage_writes_payload (now : Nat) (payload : String) (s : AppState) :
    (onmessage now payload s).messages = s.messages ++ [⟨now, payload, Sender.bot⟩]
    ∧ (onmessage now payload s).isLoading = false
    ∧ (onmessage now payload s).inputMessage = s.inputMessage
    ∧ (onmessage now payload s).ws = s.ws
    ∧ (startsWithBrace payload = false → renderBotContent payload = Rendered.text payload)
    ∧ (JSONParse payload = none → renderBotContent payload = Rendered.text payload) := by
  refine ⟨rfl, rfl, rfl, rfl, ?_, ?_⟩
  · intro h
    simp [renderBotContent, h]
  · intro h
    by_cases hb : startsWithBrace payload
    · simp [renderBotContent, hb, formatJsonResponse, h]
    · simp [renderBotContent, hb]

/-- Witness for C1 (amended) at a concrete payload. -/
theorem onmessage_writes_payload_witness :
    (onmessage 9 "hello" ⟨[], "", some (), true⟩).messages
        = [] ++ [⟨9, "hello", Sender.bot⟩]
    ∧ (onmessage 9 "hello" ⟨[], "", some (), true⟩).isLoading = false
    ∧ (onmessage 9 "hello" ⟨[], "", some (), true⟩).inputMessage = ""
    ∧ (onmessage 9 "hello" ⟨[], "", some (), true⟩).ws = some ()
    ∧ (startsWithBrace "hello" = false → renderBotContent "hello" = Rendered.text "hello")
    ∧ (JSONParse "hello" = none → renderBotContent "hello" = Rendered.text "hello") :=
  onmessage_writes_payload 9 "hello" ⟨[], "", some (), true⟩

/-- Counterexample to C1 as stated: for the received payload
`{"a":1}` the appended bot message stores the payload verbatim, but its
displayed rendering is the structured key/value form, not the verbatim
payload text. -/
theorem onmessage_display_cex :
    (onmessage 9 "\x7b\"a\":1\x7d" ⟨[], "", some (), true⟩).messages
        = [⟨9, "\x7b\"a\":1\x7d", Sender.bot⟩]
    ∧ renderBotContent "\x7b\"a\":1\x7d" ≠ Rendered.text "\x7b\"a\":1\x7d" := by
  refine ⟨rfl, ?_⟩
  have hval : renderBotContent "\x7b\"a\":1\x7d"
      = Rendered.entries [("a", Rendered.text "1")] := by
    simp [renderBotContent, startsWithBrace, formatJsonResponse, lbraceC]
    rw [show JSONParse "\x7b\"a\":1\x7d" = some (Json.obj [("a", Json.num 1)]) from rfl]
    simp [formatFieldEntries, formatValue, replaceUnderscores]
    rfl
  rw [hval]
  intro h
  exact Rendered.noConfusion h

mutual

/-- Size measure for JSON values, bounding the recursion depth of the
renderers. -/
def Json.weight : Json → Nat
  | .null => 1
  | .bool _ => 1
  | .num _ => 1
  | .str _ => 1
  | .arr items => 1 + Json.weightList items
  | .obj fields => 1 + Json.weightFields fields
  termination_by j => sizeOf j

/-- Size measure for lists of JSON values. -/
def Json.weightList : List Json → Nat
  | [] => 1
  | j :: rest => 1 + Json.weight j + Json.weightList rest
  termination_by l => sizeOf l

/-- Size measure for object field lists. -/
def Json.weightFields : List (String × Json) → Nat
  | [] => 1
  | (_, v) :: rest => 1 + Json.weight v + Json.weightFields rest
  termination_by l => sizeOf l

end

mutual

/-- Fuel-instrumented version of `formatValue`: performs exactly the
recursive calls of the renderer, spending one unit of fuel per call, and
returns `none` if the fuel runs out.  Used to state that the recursion
terminates within a depth bounded by the value's size. -/
def formatValueFuel : Nat → Json → Option Rendered
  | 0, _ => none
  | f + 1, .arr items =>
    match formatArrayItemsFuel f items with
    | none => none
    | some rs => some (.list rs)
  | f + 1, .obj fields => formatJsonResponseValueFuel f (.obj fields)
  | _ + 1, .null => some (.text "null")
  | _ + 1, .bool b => some (.text (if b then "true" else "false"))
  | _ + 1, .num n => some (.text (toString n))
  | _ + 1, .str s => some (.text s)

/-- Fuel-instrumented version of `formatArrayItems`. -/
def formatArrayItemsFuel : Nat → List Json → Option (List Rendered)
  | 0, _ => none
  | _ + 1, [] => some []
  | f + 1, item :: rest =>
    match (if jsTypeofIsObject item then formatJsonResponseValueFuel f item
           else some (.text (reactPrimText item))) with
    | none => none
    | some r =>
      match formatArrayItemsFuel f rest with
      | none => none
      | some rs => some (r :: rs)

/-- Fuel-instrumented version of `formatJsonResponseValue`. -/
def formatJsonResponseValueFuel : Nat → Json → Option Rendered
  | 0, _ => none
  | _ + 1, .null => some (.text "")
  | f + 1, .obj fields =>
    match formatFieldEntriesFuel f fields with
    | none => none
    | some es => some (.entries es)
  | f + 1, .arr items =>
    match formatIndexedEntriesFuel f 0 items with
    | none => none
    | some es => some (.entries es)
  | _ + 1, .str s => some (.entries (stringCharEntries 0 s.data))
  | _ + 1, .bool _ => some (.entries [])
  | _ + 1, .num _ => some (.entries [])

/-- Fuel-instrumented version of `formatFieldEntries`. -/
def formatFieldEntriesFuel : Nat → List (String × Json) → Option (List (String × Rendered))
  | 0, _ => none
  | _ + 1, [] => some []
  | f + 1, (k, v) :: rest =>
    match formatValueFuel f v with
    | none => none
    | some r =>
      match formatFieldEntriesFuel f rest with
      | none => none
      | some es => some ((replaceUnderscores k, r) :: es)

/-- Fuel-instrumented version of `formatIndexedEntries`. -/
def formatIndexedEntriesFuel : Nat → Nat → List Json → Option (List (String × Rendered))
  | 0, _, _ => none
  | _ + 1, _, [] => some []
  | f + 1, i, v :: rest =>
    match formatValueFuel f v with
    | none => none
    | some r =>
      match formatIndexedEntriesFuel f (i + 1) rest with
      | none => none
      | some es => some ((toString i, r) :: es)

end

/-- Every JSON value has positive weight. -/
theorem Json.weight_pos (j : Json) : 1 ≤ Json.weight j := by
  cases j <;> simp [Json.weight]

/-- Every list of JSON values has positive weight. -/
theorem Json.weightList_pos (l : List Json) : 1 ≤ Json.weightList l := by
  cases l with
  | nil => simp [Json.weightList]
  | cons j rest => simp [Json.weightList]; omega

/-- Every object field list has positive weight. -/
theorem Json.weightFields_pos (l : List (String × Json)) : 1 ≤ Json.weightFields l := by
  cases l with
  | nil => simp [Json.weightFields]
  | cons kv rest => obtain ⟨k, v⟩ := kv; simp [Json.weightFields]; omega

/-- Fuel bounded by twice the weight suffices for every renderer: the
fuel-instrumented renderers agree with the recursive ones. -/
theorem renderFuelAux (f : Nat) :
    (∀ j : Json, 2 * Json.weight j ≤ f →
      formatValueFuel f j = some (formatValue j))
    ∧ (∀ j : Json, 2 * Json.weight j - 1 ≤ f →
      formatJsonResponseValueFuel f j = some (formatJsonResponseValue j))
    ∧ (∀ l : List Json, 2 * Json.weightList l ≤ f →
      formatArrayItemsFuel f l = some (formatArrayItems l))
    ∧ (∀ l : List (String × Json), 2 * Json.weightFields l ≤ f →
      formatFieldEntriesFuel f l = some (formatFieldEntries l))
    ∧ (∀ (i : Nat) (l : List Json), 2 * Json.weightList l ≤ f →
      formatIndexedEntriesFuel f i l = some (formatIndexedEntries i l)) := by
  induction f with
  | zero =>
    refine ⟨?_, ?_, ?_, ?_, ?_⟩
    · intro j h; have := Json.weight_pos j; omega
    · intro j h; have := Json.weight_pos j; omega
    · intro l h; have := Json.weightList_pos l; omega
    · intro l h; have := Json.weightFields_pos l; omega
    · intro i l h; have := Json.weightList_pos l; omega
  | succ f ih =>
    obtain ⟨ihv, ihr, ihl, ihf, ihi⟩ := ih
    refine ⟨?_, ?_, ?_, ?_, ?_⟩
    · intro j h
      cases j with
      | null => simp [formatValueFuel, formatValue]
      | bool b => simp [formatValueFuel, formatValue]
      | num n => simp [formatValueFuel, formatValue]
      | str s => simp [formatValueFuel, formatValue]
      | arr items =>
        have h1 : 2 * Json.weightList items ≤ f := by
          simp [Json.weight] at h; omega
        simp [formatValueFuel, formatValue, ihl items h1]
      | obj fields =>
        have h1 : 2 * Json.weight (Json.obj fields) - 1 ≤ f := by
          simp [Json.weight] at h ⊢; omega
        simp [formatValueFuel, formatValue, ihr (Json.obj fields) h1]
    · intro j h
      cases j with
      | null => simp [formatJsonResponseValueFuel, formatJsonResponseValue]
      | bool b => simp [formatJsonResponseValueFuel, formatJsonResponseValue]
      | num n => simp [formatJsonResponseValueFuel, formatJsonResponseValue]
      | str s => simp [formatJsonResponseValueFuel, formatJsonResponseValue]
      | arr items =>
        have h1 : 2 * Json.weightList items ≤ f := by
          simp [Json.weight] at h; omega
        simp [formatJsonResponseValueFuel, formatJsonResponseValue, ihi 0 items h1]
      | obj fields =>
        have h1 : 2 * Json.weightFields fields ≤ f := by
          simp [Json.weight] at h; omega
        simp [formatJsonResponseValueFuel, formatJsonResponseValue, ihf fields h1]
    · intro l h
      cases l with
      | nil => simp [formatArrayItemsFuel, formatArrayItems]
      | cons item rest =>
        have hrest : 2 * Json.weightList rest ≤ f := by
          simp [Json.weightList] at h; omega
        by_cases hobj : jsTypeofIsObject item = true
        · have hitem : 2 * Json.weight item - 1 ≤ f := by
            simp [Json.weightList] at h; omega
          simp [formatArrayItemsFuel, formatArrayItems, hobj,
            ihr item hitem, ihl rest hrest]
        · simp [formatArrayItemsFuel, formatArrayItems, hobj, ihl rest hrest]
    · intro l h
      cases l with
      | nil => simp [formatFieldEntriesFuel, formatFieldEntries]
      | cons kv rest =>
        obtain ⟨k, v⟩ := kv
        have hv : 2 * Json.weight v ≤ f := by
          simp [Json.weightFields] at h; omega
        have hrest : 2 * Json.weightFields rest ≤ f := by
          simp [Json.weightFields] at h; omega
        simp [formatFieldEntriesFuel, formatFieldEntries, ihv v hv, ihf rest hrest]
    · intro i l h
      cases l with
      | nil => simp [formatIndexedEntriesFuel, formatIndexedEntries]
      | cons v rest =>
        have hv : 2 * Json.weight v ≤ f := by
          simp [Json.weightList] at h; omega
        have hrest : 2 * Json.weightList rest ≤ f := by
          simp [Json.weightList] at h; omega
        simp [formatIndexedEntriesFuel, formatIndexedEntries, ihv v hv, ihi (i + 1) rest hrest]

/-- Claim C10: for every finite JSON value the mutually recursive
renderers `formatValue` and `formatJsonResponse` terminate — the
fuel-instrumented renderers, which spend one unit of fuel per recursive
call, complete with any fuel of at least twice the value's weight and
agree with the recursive renderers. -/
theorem renderers_terminate (j : Json) (f : Nat) (h : 2 * Json.weight j ≤ f) :
    formatValueFuel f j = some (formatValue j)
    ∧ formatJsonResponseValueFuel f j = some (formatJsonResponseValue j) := by
  obtain ⟨hv, hr, -, -, -⟩ := renderFuelAux f
  exact ⟨hv j h, hr j (by have := Json.weight_pos j; omega)⟩

/-- Witness for C10 at a concrete nested value. -/
theorem renderers_terminate_witness :
    formatValueFuel 14 (Json.obj [("a", Json.arr [Json.num 1])])
        = some (formatValue (Json.obj [("a", Json.arr [Json.num 1])]))
    ∧ formatJsonResponseValueFuel 14 (Json.obj [("a", Json.arr [Json.num 1])])
        = some (formatJsonResponseValue (Json.obj [("a", Json.arr [Json.num 1])])) :=
  renderers_terminate (Json.obj [("a", Json.arr [Json.num 1])]) 14
    (by simp only [Json.weight, Json.weightFields, Json.weightList]; omega)

/-- Modelled from the spec: the closed `IntentLabel` set (§3) of the
routing engine, whose sources (`backend/agents/...`) are not part of
this source tree. -/
inductive IntentLabel where
  | flight
  | hotel
  | car
  | activities
  | destination
  | general
  | multi
deriving DecidableEq

/-- Modelled from the spec: normalization of a raw label produced by the
intent-understanding service into the closed label set — any label
outside the set is mapped to `general` (§4.1). -/
def labelOfString (s : String) : IntentLabel :=
  if s = "flight" then .flight
  else if s = "hotel" then .hotel
  else if s = "car" then .car
  else if s = "activities" then .activities
  else if s = "destination" then .destination
  else if s = "multi" then .multi
  else .general

/-- Modelled from the spec: a classification yields an ordered set with
no duplicates (§3); duplicates keep their first occurrence. -/
def dedupLabels : List IntentLabel → List IntentLabel
  | [] => []
  | c :: rest => c :: (dedupLabels rest).filter (fun x => x != c)

/-- `dedupLabels` always produces a duplicate-free list. -/
theorem dedupLabels_nodup : ∀ l : List IntentLabel, (dedupLabels l).Nodup
  | [] => by simp [dedupLabels]
  | c :: rest => by
    rw [dedupLabels, List.nodup_cons]
    refine ⟨?_, (dedupLabels_nodup rest).filter _⟩
    intro hmem
    have := List.of_mem_filter hmem
    simp at this

/-- Modelled from the spec: `classify(text)` (§4.1): the classifier
consults the intent-understanding service (`predict`, whose failure is
`none`), normalizes every raw label into the closed set, removes
duplicates, degrades service failure to `general`, and never returns the
empty set — in particular empty text classifies to `general`. -/
def classify (predict : String → Option (List String)) (text : String) :
    List IntentLabel :=
  if text = "" then [.general]
  else
    match predict text with
    | none => [.general]
    | some raw =>
      let ls := dedupLabels (raw.map labelOfString)
      if ls = [] then [.general] else ls

/-- Claim C6: for every text input and every behaviour of the underlying
service, `classify` returns a non-empty duplicate-free ordered set of
labels (drawn from the closed `IntentLabel` set by construction), and
the empty text classifies to `general`. -/
theorem classify_nonempty_closed (predict : String → Option (List String))
    (text : String) :
    classify predict text ≠ []
    ∧ (classify predict text).Nodup
    ∧ classify predict "" = [IntentLabel.general] := by
  refine ⟨?_, ?_, by simp [classify]⟩
  · unfold classify
    by_cases ht : text = ""
    · simp [ht]
    · simp only [ht, if_false]
      cases hp : predict text with
      | none => simp
      | some raw =>
        by_cases hl : dedupLabels (raw.map labelOfString) = []
        · simp [hl]
        · simp [hl]
  · unfold classify
    by_cases ht : text = ""
    · simp [ht]
    · simp only [ht, if_false]
      cases hp : predict text with
      | none => simp
      | some raw =>
        by_cases hl : dedupLabels (raw.map labelOfString) = []
        · simp [hl]
        · simp [hl]
          exact dedupLabels_nodup _

/-- Modelled from the spec: the `status` field of an `AgentResult`
(§3). -/
inductive ResultStatus where
  | ok
  | handoff
  | error
deriving DecidableEq

/-- Modelled from the spec: `AgentResult{conversation_id, capability,
structured_or_text_payload, status}` (§3). -/
structure AgentResult where
  conversationId : Nat
  capability : IntentLabel
  payload : String
  status : ResultStatus
deriving DecidableEq

/-- Modelled from the spec: one entry of `collected_results` — either a
capability's successful result or the placeholder failure note recorded
for a handoff or timeout (§4.3). -/
inductive CollectedEntry where
  | success (payload : String)
  | failure (note : String)
deriving DecidableEq

/-- Modelled from the spec: `CoordinationSession{conversation_id,
pending_capabilities, collected_results, created_at}` (§3);
`originalLabels` records the ordered labels at session creation, the
"original label order" in which the final answer is compiled (§4.3). -/
structure CoordinationSession where
  conversationId : Nat
  originalLabels : List IntentLabel
  pending : List IntentLabel
  collected : List (IntentLabel × CollectedEntry)
  createdAt : Nat
deriving DecidableEq

/-- Modelled from the spec: session creation in `coordinate` (§4.3),
with `pending_capabilities` set to the ordered input labels and no
collected results. -/
def newSession (cid : Nat) (labels : List IntentLabel) (t : Nat) :
    CoordinationSession :=
  { conversationId := cid, originalLabels := labels, pending := labels,
    collected := [], createdAt := t }

/-- Modelled from the spec: the placeholder failure note recorded for a
capability that handed off, erred or timed out (§4.3). -/
def unavailableNote : String := "unavailable"

/-- Modelled from the spec: the Coordinator's handler for an incoming
`AgentResult` (§4.3): an ok result is stored in `collected_results` and
the capability removed from `pending_capabilities`; a handoff, error or
timeout result is recorded as a placeholder failure note and likewise
removed; a result for a capability that is no longer pending has no
effect on the session (§8, idempotence). -/
def handleAgentResult (s : CoordinationSession) (r : AgentResult) :
    CoordinationSession :=
  if r.capability ∈ s.pending then
    { s with
      pending := s.pending.erase r.capability,
      collected := s.collected ++
        [(r.capability,
          match r.status with
          | .ok => .success r.payload
          | _ => .failure unavailableNote)] }
  else s

/-- Modelled from the spec: the observable behaviour of one capability
agent for one task — a completed result, a handoff signal, or a silent
timeout (§6). -/
inductive AgentOutcome where
  | ok (payload : String)
  | handoff (reason : String)
  | timeout
deriving DecidableEq

/-- Modelled from the spec: the `AgentResult` the Coordinator observes
for capability `c` — a timeout produces a synthetic error result (§3
invariant). -/
def outcomeResult (cid : Nat) (c : IntentLabel) : AgentOutcome → AgentResult
  | .ok p => ⟨cid, c, p, .ok⟩
  | .handoff reason => ⟨cid, c, reason, .handoff⟩
  | .timeout => ⟨cid, c, "", .error⟩

/-- The `collected_results` entry eventually recorded for an outcome. -/
def entryOfOutcome : AgentOutcome → CollectedEntry
  | .ok p => .success p
  | .handoff _ => .failure unavailableNote
  | .timeout => .failure unavailableNote

/-- Modelled from the spec: the session collects one `AgentResult` (or
synthetic timeout result) per dispatched capability (§4.3). -/
def deliverAll (cid : Nat) (respond : IntentLabel → AgentOutcome) :
    List IntentLabel → CoordinationSession → CoordinationSession
  | [], s => s
  | c :: rest, s =>
    deliverAll cid respond rest (handleAgentResult s (outcomeResult cid c (respond c)))

/-- Modelled from the spec: one slot of the compiled `FinalAnswer` —
either a capability's successful result or an explicit unavailable
placeholder (§4.3, §8). -/
inductive Slot where
  | result (capability : IntentLabel) (payload : String)
  | unavailable (capability : IntentLabel)
deriving DecidableEq

/-- The capability a slot is about. -/
def Slot.capability : Slot → IntentLabel
  | .result c _ => c
  | .unavailable c => c

/-- Modelled from the spec: `FinalAnswer{conversation_id,
text_or_structured}` (§3), with the structured payload kept as the
ordered slot list. -/
structure FinalAnswer where
  conversationId : Nat
  slots : List Slot
deriving DecidableEq

/-- Lookup of a capability in `collected_results`. -/
def lookupCollected :
    List (IntentLabel × CollectedEntry) → IntentLabel → Option CollectedEntry
  | [], _ => none
  | (c, e) :: rest, c0 => if c0 = c then some e else lookupCollected rest c0

/-- Modelled from the spec: termination of a session (§4.3) — when
`pending_capabilities` is empty the session compiles one `FinalAnswer`
structuring all `collected_results` in the original label order,
labeling any missing or failed capability as unavailable. -/
def compileFinalAnswer (s : CoordinationSession) : FinalAnswer :=
  { conversationId := s.conversationId,
    slots := s.originalLabels.map fun c =>
      match lookupCollected s.collected c with
      | some (.success p) => .result c p
      | some (.failure _) => .unavailable c
      | none => .unavailable c }

/-- Modelled from the spec: `coordinate(conversation_id, labels)`
(§4.3): create the session, dispatch every capability, collect one
result per capability, and compile the final answer. -/
def coordinate (cid : Nat) (labels : List IntentLabel)
    (respond : IntentLabel → AgentOutcome) (t : Nat) : FinalAnswer :=
  compileFinalAnswer (deliverAll cid respond labels (newSession cid labels t))

/-- The result delivered for capability `c` is attributed to `c`. -/
theorem outcomeResult_capability (cid : Nat) (c : IntentLabel) (o : AgentOutcome) :
    (outcomeResult cid c o).capability = c := by
  cases o <;> rfl

/-- Effect of handling the result delivered for a pending capability. -/
theorem handle_outcome (cid : Nat) (c : IntentLabel) (o : AgentOutcome)
    (s : CoordinationSession) (hmem : c ∈ s.pending) :
    handleAgentResult s (outcomeResult cid c o)
      = { s with
          pending := s.pending.erase c,
          collected := s.collected ++ [(c, entryOfOutcome o)] } := by
  cases o <;> simp [handleAgentResult, outcomeResult, entryOfOutcome, hmem]

/-- Delivering one result per pending capability records exactly one
collected entry per capability, in dispatch order, and leaves the
original labels and conversation id untouched. -/
theorem deliverAll_collected (cid : Nat) (respond : IntentLabel → AgentOutcome) :
    ∀ (todo : List IntentLabel) (s : CoordinationSession), s.pending = todo →
      (deliverAll cid respond todo s).collected
          = s.collected ++ todo.map (fun c => (c, entryOfOutcome (respond c)))
      ∧ (deliverAll cid respond todo s).originalLabels = s.originalLabels
      ∧ (deliverAll cid respond todo s).conversationId = s.conversationId := by
  intro todo
  induction todo with
  | nil => intro s hp; simp [deliverAll]
  | cons c rest ih =>
    intro s hp
    have hmem : c ∈ s.pending := by rw [hp]; exact List.mem_cons_self c rest
    have herase : s.pending.erase c = rest := by rw [hp]; exact List.erase_cons_head c rest
    rw [deliverAll, handle_outcome cid c (respond c) s hmem]
    obtain ⟨h1, h2, h3⟩ := ih
      { s with
        pending := s.pending.erase c,
        collected := s.collected ++ [(c, entryOfOutcome (respond c))] }
      herase
    refine ⟨?_, ?_, ?_⟩
    · rw [h1]; simp
    · rw [h2]
    · rw [h3]

/-- Looking up a capability of `ls` in the entry list built over `ls`
finds that capability's entry. -/
theorem lookupCollected_map (g : IntentLabel → CollectedEntry) :
    ∀ (ls : List IntentLabel) (c0 : IntentLabel), c0 ∈ ls →
      lookupCollected (ls.map fun c => (c, g c)) c0 = some (g c0) := by
  intro ls
  induction ls with
  | nil => intro c0 h; cases h
  | cons c rest ih =>
    intro c0 h
    by_cases hc : c0 = c
    · subst hc; simp [lookupCollected]
    · have hr : c0 ∈ rest := by
        rcases List.mem_cons.mp h with h1 | h1
        · exact absurd h1 hc
        · exact h1
      simp [lookupCollected, hc, ih c0 hr]

/-- Claim C4: for every multi-label run the Coordinator's `FinalAnswer`
has exactly one slot per originally pending capability, in the original
label order — a successful capability's result or an explicit
unavailable placeholder — and no capability is dropped. -/
theorem coordinator_no_silent_drop (cid t : Nat) (labels : List IntentLabel)
    (respond : IntentLabel → AgentOutcome) (_hmulti : 1 < labels.length) :
    (coordinate cid labels respond t).slots
      = labels.map (fun c =>
          match respond c with
          | .ok p => Slot.result c p
          | _ => Slot.unavailable c)
    ∧ (coordinate cid labels respond t).slots.map Slot.capability = labels := by
  obtain ⟨h1, h2, h3⟩ :=
    deliverAll_collected cid respond labels (newSession cid labels t) rfl
  have hcoll : (deliverAll cid respond labels (newSession cid labels t)).collected
      = labels.map (fun c => (c, entryOfOutcome (respond c))) := by
    rw [h1]; simp [newSession]
  have horig :
      (deliverAll cid respond labels (newSession cid labels t)).originalLabels
        = labels := by
    rw [h2]; rfl
  have hslots : (coordinate cid labels respond t).slots
      = labels.map (fun c =>
          match respond c with
          | .ok p => Slot.result c p
          | _ => Slot.unavailable c) := by
    simp only [coordinate, compileFinalAnswer, hcoll, horig]
    apply List.map_congr_left
    intro c hc
    rw [lookupCollected_map (fun c => entryOfOutcome (respond c)) labels c hc]
    cases hr : respond c <;> simp [entryOfOutcome]
  refine ⟨hslots, ?_⟩
  rw [hslots, List.map_map]
  conv_rhs => rw [← List.map_id labels]
  apply List.map_congr_left
  intro c hc
  cases hr : respond c <;> simp [hr, Function.comp, Slot.capability]

/-- Witness for C4 at a concrete two-capability run with one success and
one timeout. -/
theorem coordinator_no_silent_drop_witness :
    (coordinate 1 [IntentLabel.flight, IntentLabel.hotel]
        (fun c => if c = IntentLabel.flight
          then AgentOutcome.ok "booked" else AgentOutcome.timeout) 0).slots
      = [IntentLabel.flight, IntentLabel.hotel].map (fun c =>
          match (if c = IntentLabel.flight
            then AgentOutcome.ok "booked" else AgentOutcome.timeout) with
          | .ok p => Slot.result c p
          | _ => Slot.unavailable c)
    ∧ (coordinate 1 [IntentLabel.flight, IntentLabel.hotel]
        (fun c => if c = IntentLabel.flight
          then AgentOutcome.ok "booked" else AgentOutcome.timeout) 0).slots.map
        Slot.capability
      = [IntentLabel.flight, IntentLabel.hotel] :=
  coordinator_no_silent_drop 1 0 [IntentLabel.flight, IntentLabel.hotel]
    (fun c => if c = IntentLabel.flight
      then AgentOutcome.ok "booked" else AgentOutcome.timeout)
    (by decide)

/-- Claim C7: delivering an `AgentResult` for a capability already
removed from `pending_capabilities` leaves the session unchanged; in
particular replaying the same result twice over a duplicate-free pending
list has the same effect as delivering it once. -/
theorem agentResult_replay_idempotent :
    (∀ (s : CoordinationSession) (r : AgentResult), r.capability ∉ s.pending →
        handleAgentResult s r = s)
    ∧ (∀ (s : CoordinationSession) (r : AgentResult), s.pending.Nodup →
        handleAgentResult (handleAgentResult s r) r = handleAgentResult s r) := by
  have hno : ∀ (s : CoordinationSession) (r : AgentResult),
      r.capability ∉ s.pending → handleAgentResult s r = s := by
    intro s r h
    simp [handleAgentResult, h]
  refine ⟨hno, ?_⟩
  intro s r hnd
  by_cases hc : r.capability ∈ s.pending
  · have hpend : (handleAgentResult s r).pending = s.pending.erase r.capability := by
      simp [handleAgentResult, hc]
    apply hno
    rw [hpend]
    intro hmem
    exact ((List.Nodup.mem_erase_iff hnd).mp hmem).1 rfl
  · rw [hno s r hc]
    exact hno s r hc

/-- Witness for C7 at a concrete session whose pending list no longer
holds the result's capability. -/
theorem agentResult_replay_idempotent_witness :
    handleAgentResult
        ⟨1, [IntentLabel.flight], [], [(IntentLabel.flight, CollectedEntry.success "ok")], 0⟩
        ⟨1, IntentLabel.flight, "again", ResultStatus.ok⟩
      = ⟨1, [IntentLabel.flight], [], [(IntentLabel.flight, CollectedEntry.success "ok")], 0⟩ :=
  agentResult_replay_idempotent.1
    ⟨1, [IntentLabel.flight], [], [(IntentLabel.flight, CollectedEntry.success "ok")], 0⟩
    ⟨1, IntentLabel.flight, "again", ResultStatus.ok⟩
    (by decide)

/-- Modelled from the spec: the per-turn phase of the handoff state
machine (§4.4) — either still routing/dispatching with the current
`HandoffCount`, or terminally unservable. -/
inductive TurnPhase where
  | active (handoffCount : Nat)
  | unservable
deriving DecidableEq

/-- Modelled from the spec: the Router's outward reaction to one
`HandoffRequest` — reclassify-and-route-again, or emit the terminal
unservable `FinalAnswer` (§4.2). -/
inductive RouterAction where
  | reroute
  | emitUnservable
deriving DecidableEq

/-- Modelled from the spec: on a `HandoffRequest` the Router increments
the conversation's `HandoffCount`; if it exceeds the configured bound
(default 3) routing terminates with an unservable `FinalAnswer`,
otherwise the remaining text is reclassified and routed again (§4.2,
§4.4).  In the terminal unservable state no further routing happens and
nothing more is emitted. -/
def handleHandoffReq (bound : Nat) : TurnPhase → TurnPhase × Option RouterAction
  | .active c =>
    if bound < c + 1 then (.unservable, some .emitUnservable)
    else (.active (c + 1), some .reroute)
  | .unservable => (.unservable, none)

/-- Modelled from the spec: the phase of one conversation turn after `n`
handoff requests, starting from a fresh turn with `HandoffCount = 0`
(§4.4). -/
def phaseAfter (bound : Nat) : Nat → TurnPhase
  | 0 => .active 0
  | n + 1 => (handleHandoffReq bound (phaseAfter bound n)).1

/-- Up to the bound, each handoff keeps the turn active and counts. -/
theorem phaseAfter_active (bound : Nat) :
    ∀ k, k ≤ bound → phaseAfter bound k = TurnPhase.active k := by
  intro k
  induction k with
  | zero => intro h; rfl
  | succ k ih =>
    intro h
    rw [phaseAfter, ih (Nat.le_of_succ_le h)]
    simp [handleHandoffReq, Nat.not_lt.mpr h]

/-- Claim C5: after exactly `HandoffCount`-ceiling + 1 handoffs in one
turn the system emits the unservable `FinalAnswer` and transitions to
the terminal unservable state; every earlier handoff is rerouted, and
once unservable no further routing or emission ever happens. -/
theorem handoff_bound_terminates (bound : Nat) :
    (handleHandoffReq bound (phaseAfter bound bound)).2
        = some RouterAction.emitUnservable
    ∧ phaseAfter bound (bound + 1) = TurnPhase.unservable
    ∧ (∀ k, k < bound →
        (handleHandoffReq bound (phaseAfter bound k)).2 = some RouterAction.reroute)
    ∧ (∀ n, phaseAfter bound (bound + 1 + n) = TurnPhase.unservable
        ∧ (handleHandoffReq bound (phaseAfter bound (bound + 1 + n))).2 = none) := by
  have hact := phaseAfter_active bound bound (Nat.le_refl bound)
  have hemit : (handleHandoffReq bound (phaseAfter bound bound)).2
      = some RouterAction.emitUnservable := by
    rw [hact]
    simp [handleHandoffReq]
  have hterm : phaseAfter bound (bound + 1) = TurnPhase.unservable := by
    rw [phaseAfter, hact]
    simp [handleHandoffReq]
  have habsorb : ∀ n, phaseAfter bound (bound + 1 + n) = TurnPhase.unservable := by
    intro n
    induction n with
    | zero => exact hterm
    | succ n ih =>
      have harith : bound + 1 + (n + 1) = (bound + 1 + n) + 1 := by omega
      rw [harith, phaseAfter, ih]
      rfl
  refine ⟨hemit, hterm, ?_, ?_⟩
  · intro k hk
    rw [phaseAfter_active bound k (Nat.le_of_lt hk)]
    simp [handleHandoffReq, Nat.succ_le_of_lt hk, Nat.not_lt.mpr (Nat.succ_le_of_lt hk)]
  · intro n
    refine ⟨habsorb n, ?_⟩
    rw [habsorb n]
    rfl

/-- Witness for C5 at the spec's default bound of three handoffs. -/
theorem handoff_bound_terminates_witness :
    (handleHandoffReq 3 (phaseAfter 3 3)).2 = some RouterAction.emitUnservable
    ∧ phaseAfter 3 (3 + 1) = TurnPhase.unservable
    ∧ (∀ k, k < 3 →
        (handleHandoffReq 3 (phaseAfter 3 k)).2 = some RouterAction.reroute)
    ∧ (∀ n, phaseAfter 3 (3 + 1 + n) = TurnPhase.unservable
        ∧ (handleHandoffReq 3 (phaseAfter 3 (3 + 1 + n))).2 = none) :=
  handoff_bound_terminates 3
